import Mathlib

/-!
Verification development for the dispatch/effect core in
src/lager/context.hpp (the lager library).

Shallow embedding conventions.  Action types are represented by codes
drawn from an arbitrary type (or by Nat in the dispatcher sections); the
C++ trait std::is_convertible between two action types is an abstract
boolean relation conv, and the value conversion performed by the implicit
C++ conversion is an abstract function cv.  An action domain
(lager::actions, a boost::hana type tuple) is a list of codes.  Effects
are std::function values, modelled with explicit target identity so that
the pointer comparison inside is_empty_effect is faithful.  Stateful
callables are state passing: a handler consumes an observable trace and
returns the extended trace, making the number and order of calls visible
in theorems.
-/

namespace Lager

/-- Local lambda has_convertible of detail::merge_actions_aux (context.hpp
lines 83 to 88): hana find_if, true when seq has a member t such that x is
convertible to t. -/
def has_convertible {α : Type} (conv : α → α → Bool) (seq : List α) (x : α) : Bool :=
  seq.any (fun t => conv x t)

/-- Local lambda remove_convertibles of detail::merge_actions_aux (lines 89
to 94): hana remove_if removes the members t of seq with x convertible to
t. -/
def remove_convertibles {α : Type} (conv : α → α → Bool) (seq : List α) (x : α) : List α :=
  seq.filter (fun t => !(conv x t))

/-- Body of detail::merge_actions_aux (lines 95 to 103): hana fold of the
members of a1 into an accumulator initialised to a2; when the accumulator
already has a member that x converts to it is kept unchanged, otherwise
the convertible members are removed and x is appended.  The final
normalisation of a one member result to the bare type (lines 105 to 113)
is type level packaging and does not change the member list. -/
def merge_actions_aux {α : Type} (conv : α → α → Bool) (a1 a2 : List α) : List α :=
  a1.foldl
    (fun acc x =>
      if has_convertible conv acc x then acc
      else remove_convertibles conv acc x ++ [x])
    a2

/-- Definition following the words of the spec (section 4.1), for the
refinement claim C2: for each member x of D1, if the accumulator already
contains some member t such that x converts to t, keep the accumulator
unchanged; otherwise add x to the accumulator. -/
def merge_actions_spec {α : Type} (conv : α → α → Bool) (a1 a2 : List α) : List α :=
  a1.foldl
    (fun acc x => if has_convertible conv acc x then acc else acc ++ [x])
    a2

theorem remove_convertibles_of_guard {α : Type} (conv : α → α → Bool)
    (seq : List α) (x : α) (h : has_convertible conv seq x = false) :
    remove_convertibles conv seq x = seq := by
  have hall : ∀ t ∈ seq, conv x t = false := by
    intro t ht
    by_contra hc
    have : seq.any (fun t => conv x t) = true :=
      List.any_eq_true.mpr ⟨t, ht, by simpa using hc⟩
    rw [has_convertible] at h
    rw [h] at this
    exact Bool.false_ne_true this
  unfold remove_convertibles
  apply List.filter_eq_self.mpr
  intro t ht
  simp [hall t ht]

theorem merge_actions_aux_eq_spec {α : Type} (conv : α → α → Bool)
    (a1 a2 : List α) :
    merge_actions_aux conv a1 a2 = merge_actions_spec conv a1 a2 := by
  induction a1 generalizing a2 with
  | nil => rfl
  | cons x xs ih =>
    show List.foldl _ _ (x :: xs) = List.foldl _ _ (x :: xs)
    rw [List.foldl_cons, List.foldl_cons]
    by_cases h : has_convertible conv a2 x = true
    · simp only [h, if_true]
      exact ih a2
    · have hf : has_convertible conv a2 x = false := by
        simpa using h
      simp only [hf, Bool.false_eq_true, if_false,
        remove_convertibles_of_guard conv a2 x hf]
      exact ih (a2 ++ [x])

theorem subset_merge_actions_spec {α : Type} (conv : α → α → Bool)
    (a1 a2 : List α) : a2 ⊆ merge_actions_spec conv a1 a2 := by
  induction a1 generalizing a2 with
  | nil => exact fun t ht => ht
  | cons x xs ih =>
    intro t ht
    show t ∈ List.foldl _ _ (x :: xs)
    rw [List.foldl_cons]
    by_cases h : has_convertible conv a2 x = true
    · simp only [h, if_true]
      exact ih a2 ht
    · simp only [h, if_false]
      exact ih (a2 ++ [x]) (List.mem_append_left _ ht)

theorem mem_converts_merge_actions_spec {α : Type} (conv : α → α → Bool)
    (href : ∀ a, conv a a = true) (a1 a2 : List α) (x : α)
    (hx : x ∈ a1 ∨ x ∈ a2) :
    ∃ t ∈ merge_actions_spec conv a1 a2, conv x t = true := by
  induction a1 generalizing a2 with
  | nil =>
    rcases hx with hx | hx
    · exact absurd hx (List.not_mem_nil x)
    · exact ⟨x, subset_merge_actions_spec conv [] a2 hx, href x⟩
  | cons y ys ih =>
    have hstep : merge_actions_spec conv (y :: ys) a2 =
        merge_actions_spec conv ys
          (if has_convertible conv a2 y then a2 else a2 ++ [y]) := rfl
    rcases hx with hx | hx
    · rcases List.mem_cons.mp hx with hxy | hxys
      · subst hxy
        by_cases h : has_convertible conv a2 x = true
        · rcases List.any_eq_true.mp h with ⟨t, ht, hconv⟩
          refine ⟨t, ?_, by simpa using hconv⟩
          rw [hstep]
          simp only [h, if_true]
          exact subset_merge_actions_spec conv ys a2 ht
        · refine ⟨x, ?_, href x⟩
          rw [hstep]
          simp only [h, if_false]
          exact subset_merge_actions_spec conv ys (a2 ++ [x])
            (List.mem_append_right _ (List.mem_singleton.mpr rfl))
      · rw [hstep]
        exact ih _ (Or.inl hxys)
    · rw [hstep]
      by_cases h : has_convertible conv a2 y = true
      · simp only [h, if_true]
        exact ih a2 (Or.inr hx)
      · simp only [h, if_false]
        exact ih (a2 ++ [y]) (Or.inr (List.mem_append_left _ hx))

/-- Claim C1: for all non empty action domains D1 and D2, under the
reflexivity of convertibility that std::is_convertible has on the copy
constructible action types involved, the merged domain computed by
detail::merge_actions_aux is non empty, and every action type that is a
member of D1 or of D2 is convertible into some member of the merged
result. -/
theorem merge_actions_nonempty_and_covers {α : Type} (conv : α → α → Bool)
    (href : ∀ a, conv a a = true) (a1 a2 : List α)
    (_h1 : a1 ≠ []) (h2 : a2 ≠ []) :
    merge_actions_aux conv a1 a2 ≠ [] ∧
      ∀ x, x ∈ a1 ∨ x ∈ a2 →
        ∃ t ∈ merge_actions_aux conv a1 a2, conv x t = true := by
  rw [merge_actions_aux_eq_spec]
  constructor
  · rcases List.exists_mem_of_ne_nil a2 h2 with ⟨y, hy⟩
    exact List.ne_nil_of_mem (subset_merge_actions_spec conv a1 a2 hy)
  · exact fun x hx => mem_converts_merge_actions_spec conv href a1 a2 x hx

/-- Witness for claim C1 at a concrete input: domains over Bool with
convertibility given by equality. -/
theorem merge_actions_nonempty_and_covers_witness :
    (∀ a : Bool, (a == a) = true) ∧
      ([true] ≠ ([] : List Bool)) ∧ ([false] ≠ ([] : List Bool)) ∧
      (merge_actions_aux (fun x y : Bool => x == y) [true] [false] ≠ [] ∧
        ∀ x, x ∈ [true] ∨ x ∈ [false] →
          ∃ t ∈ merge_actions_aux (fun x y : Bool => x == y) [true] [false],
            (x == t) = true) :=
  ⟨by decide, by decide, by decide,
    merge_actions_nonempty_and_covers (fun x y : Bool => x == y)
      (by decide) [true] [false] (by decide) (by decide)⟩

/-- Claim C2: in the merge fold the removal of convertibles is dead code:
whenever the guard that selects the append branch holds (no accumulator
member that x converts to), remove_convertibles removes nothing, and the
implemented fold (guard, remove convertibles, append) is extensionally
equal to the keep or append fold stated by the spec, which keeps the
first seen representative per convertibility class and never replaces an
existing accumulator member. -/
theorem merge_remove_convertibles_dead {α : Type} (conv : α → α → Bool)
    (a1 a2 : List α) (_h1 : a1 ≠ []) (_h2 : a2 ≠ []) :
    (∀ acc : List α, ∀ x : α, has_convertible conv acc x = false →
        remove_convertibles conv acc x = acc) ∧
      merge_actions_aux conv a1 a2 = merge_actions_spec conv a1 a2 :=
  ⟨fun acc x h => remove_convertibles_of_guard conv acc x h,
    merge_actions_aux_eq_spec conv a1 a2⟩

/-- Witness for claim C2 at a concrete input. -/
theorem merge_remove_convertibles_dead_witness :
    ([true] ≠ ([] : List Bool)) ∧ ([false] ≠ ([] : List Bool)) ∧
      (has_convertible (fun x y : Bool => x == y) [false] true = false) ∧
      remove_convertibles (fun x y : Bool => x == y) [false] true = [false] ∧
      merge_actions_aux (fun x y : Bool => x == y) [true] [false] =
        merge_actions_spec (fun x y : Bool => x == y) [true] [false] :=
  ⟨by decide, by decide, by decide,
    (merge_remove_convertibles_dead (fun x y : Bool => x == y) [true] [false]
        (by decide) (by decide)).1 [false] true (by decide),
    (merge_remove_convertibles_dead (fun x y : Bool => x == y) [true] [false]
        (by decide) (by decide)).2⟩

/-- Address identity of a C++ object, as far as is_empty_effect can observe
it: either the namespace scope noop object itself, or storage inside a
std::function object (where the stored copy of a callable lives).  Two
distinct complete objects have distinct addresses, so a stored copy is
never at the address of the global noop object. -/
inductive Addr : Type where
  | globalNoop : Addr
  | fnStorage : Addr
  deriving DecidableEq

/-- Stored target of a std::function: its C++ type as far as the target
call of is_empty_effect can observe it (whether it is the type of noop),
its address, and its behaviour.  The body returns the list of observable
events that invoking the callable with a given context produces. -/
structure FnTarget (κ ε : Type) : Type where
  isNoopType : Bool
  addr : Addr
  body : κ → List ε

/-- Effect values: a lager effect is a std::function, either null (holds no
callable) or holding a stored target. -/
inductive Effect (κ ε : Type) : Type where
  | null : Effect κ ε
  | holds : FnTarget κ ε → Effect κ ε

/-- Modelled from the spec: the sentinel noop is defined in lager/util.hpp,
which is not among the sources at hand; the spec describes it as the
designated no op procedure.  This value is what a std::function built from
the sentinel is: the function stores a copy of the sentinel, so the stored
target has the type of noop, lives in the function storage (never at the
address of the global noop object), and its body does nothing. -/
def noopEffect {κ ε : Type} : Effect κ ε :=
  Effect.holds { isNoopType := true, addr := Addr.fnStorage, body := fun _ => [] }

/-- Translation of is_empty_effect (context.hpp lines 321 to 325): the
function is empty, or the target of the noop type compares equal to the
address of the global noop object.  When the stored target has another
type the target call returns a null pointer, which never equals the non
null address of noop, so the comparison only holds for a target of the
noop type at the global noop address. -/
def is_empty_effect {κ ε : Type} : Effect κ ε → Bool
  | Effect.null => true
  | Effect.holds t => t.isNoopType && decide (t.addr = Addr.globalNoop)

/-- Invoking an effect with a context: invoking a null std::function throws
std::bad_function_call, modelled as none; invoking a held target runs its
body, producing the list of observable events. -/
def runEffect {κ ε : Type} : Effect κ ε → κ → Option (List ε)
  | Effect.null, _ => none
  | Effect.holds t, ctx => t.body ctx |> some

/-- Behaviour of the body of a held callable; used by the composed lambda
built in sequence, which only ever invokes non null effects. -/
def bodyOf {κ ε : Type} : Effect κ ε → κ → List ε
  | Effect.null, _ => []
  | Effect.holds t, ctx => t.body ctx

/-- Translation of the conversion result_t{e} used by sequence (an effect
converted to the merged action and deps type): constructing a
std::function from another std::function yields a null function when the
source is null, and otherwise a function whose stored target (the source
function, or a copy of its target) lives in the new function storage and
behaves exactly like the source. -/
def convertEffect {κ ε : Type} : Effect κ ε → Effect κ ε
  | Effect.null => Effect.null
  | Effect.holds t => Effect.holds { t with addr := Addr.fnStorage }

/-- Effect built from an ordinary callable (a lambda that is not the noop
sentinel): the std::function stores a copy of the callable in its own
storage. -/
def effOf {κ ε : Type} (body : κ → List ε) : Effect κ ε :=
  Effect.holds { isNoopType := false, addr := Addr.fnStorage, body := body }

/-- Translation of sequence (context.hpp lines 378 to 394): if both inputs
are empty per is_empty_effect, the result is a function built from noop;
if exactly one is empty, the result is the other converted to the result
type; otherwise the result holds a lambda that invokes a with the context
and then b with the context, strictly in that order.  The lambda branch is
only reached when both inputs hold a callable. -/
def sequence {κ ε : Type} (a b : Effect κ ε) : Effect κ ε :=
  if is_empty_effect a && is_empty_effect b then noopEffect
  else if is_empty_effect a then convertEffect b
  else if is_empty_effect b then convertEffect a
  else
    Effect.holds { isNoopType := false, addr := Addr.fnStorage,
                   body := fun ctx => bodyOf a ctx ++ bodyOf b ctx }

/-- Translation of the variadic sequence overload (lines 396 to 401):
sequence of a, b and further effects is the sequence of sequence a b with
the further effects, a pairwise left to right fold. -/
def sequenceMany {κ ε : Type} (a b : Effect κ ε) : List (Effect κ ε) → Effect κ ε
  | [] => sequence a b
  | e :: es => sequenceMany (sequence a b) e es

theorem sequence_of_not_empty {κ ε : Type} (a b : Effect κ ε)
    (ha : is_empty_effect a = false) (hb : is_empty_effect b = false) :
    sequence a b =
      Effect.holds { isNoopType := false, addr := Addr.fnStorage,
                     body := fun ctx => bodyOf a ctx ++ bodyOf b ctx } := by
  simp [sequence, ha, hb]

theorem sequence_not_empty {κ ε : Type} (a b : Effect κ ε)
    (ha : is_empty_effect a = false) (hb : is_empty_effect b = false) :
    is_empty_effect (sequence a b) = false := by
  rw [sequence_of_not_empty a b ha hb]
  rfl

theorem sequenceMany_run {κ ε : Type} (rest : List (Effect κ ε)) :
    ∀ a b : Effect κ ε, is_empty_effect a = false → is_empty_effect b = false →
      (∀ e ∈ rest, is_empty_effect e = false) →
      ∀ ctx, runEffect (sequenceMany a b rest) ctx =
        some (bodyOf a ctx ++ bodyOf b ctx ++
          (rest.map (fun e => bodyOf e ctx)).flatten) := by
  induction rest with
  | nil =>
    intro a b ha hb _ ctx
    rw [sequenceMany, sequence_of_not_empty a b ha hb]
    simp [runEffect]
  | cons e es ih =>
    intro a b ha hb hrest ctx
    rw [sequenceMany]
    have hseq := sequence_not_empty a b ha hb
    have he : is_empty_effect e = false := hrest e (List.mem_cons_self e es)
    have hes : ∀ x ∈ es, is_empty_effect x = false :=
      fun x hx => hrest x (List.mem_cons_of_mem e hx)
    rw [ih (sequence a b) e hseq he hes ctx]
    have hbody : bodyOf (sequence a b) ctx = bodyOf a ctx ++ bodyOf b ctx := by
      rw [sequence_of_not_empty a b ha hb, bodyOf]
    rw [hbody]
    simp [List.append_assoc]

/-- Claim C3: for effects a and b that are both non empty per
is_empty_effect, the effect returned by sequence, invoked with a context,
produces exactly the events of the body of a at that context followed by
the events of the body of b at that context, synchronously within the same
invocation; and the variadic overload folds pairwise left to right, so all
component effects run in left to right program order. -/
theorem sequence_runs_in_order {κ ε : Type} (a b : Effect κ ε)
    (rest : List (Effect κ ε))
    (ha : is_empty_effect a = false) (hb : is_empty_effect b = false)
    (hrest : ∀ e ∈ rest, is_empty_effect e = false) :
    ∀ ctx, runEffect (sequence a b) ctx =
        some (bodyOf a ctx ++ bodyOf b ctx) ∧
      runEffect (sequenceMany a b rest) ctx =
        some (bodyOf a ctx ++ bodyOf b ctx ++
          (rest.map (fun e => bodyOf e ctx)).flatten) := by
  intro ctx
  constructor
  · rw [sequence_of_not_empty a b ha hb]
    rfl
  · exact sequenceMany_run rest a b ha hb hrest ctx

/-- Witness for claim C3 at concrete effects over the unit context, with
numbered events: the composed effect produces the events of the three
components in program order. -/
theorem sequence_runs_in_order_witness :
    (is_empty_effect (effOf (fun _ : Unit => [1]) : Effect Unit Nat) = false) ∧
      runEffect
        (sequenceMany (effOf (fun _ : Unit => ([1] : List Nat)))
          (effOf (fun _ => [2])) [effOf (fun _ => [3])]) () =
        some [1, 2, 3] :=
  ⟨rfl,
    ((sequence_runs_in_order (effOf (fun _ : Unit => ([1] : List Nat)))
        (effOf (fun _ => [2])) [effOf (fun _ => [3])]
        rfl rfl
        (by intro e he; simp at he; subst he; rfl)) ()).2⟩

/-- Claim C4, evaluated at the failing input: sequence applied to two
default constructed (null) effects returns the effect built from noop, and
is_empty_effect does not recognise it as empty, because the stored copy of
noop is in the function storage and not at the address of the global noop
object; behaviourally the returned effect still does nothing when
invoked. -/
theorem sequence_null_null_not_recognized_empty :
    sequence (Effect.null : Effect Unit Nat) Effect.null = noopEffect ∧
      is_empty_effect (sequence (Effect.null : Effect Unit Nat) Effect.null) =
        false ∧
      runEffect (sequence (Effect.null : Effect Unit Nat) Effect.null) () =
        some [] :=
  ⟨rfl, rfl, rfl⟩

/-- Claim C5, evaluated at the failing input: a std::function holding the
noop sentinel holds a copy of it inside its own storage, so the identity
comparison against the address of the global noop object is false and
is_empty_effect does not recognise the sentinel; a distinct procedure
whose body does nothing is not recognised either; only a function holding
no callable at all is reported empty.  The general fact: a held target at
function storage is never reported empty, whatever its type and body. -/
theorem is_empty_effect_only_null :
    is_empty_effect (noopEffect : Effect Unit Nat) = false ∧
      is_empty_effect (Effect.null : Effect Unit Nat) = true ∧
      is_empty_effect (effOf (fun _ : Unit => ([] : List Nat))) = false ∧
      ∀ (κ ε : Type) (t : FnTarget κ ε), t.addr = Addr.fnStorage →
        is_empty_effect (Effect.holds t) = false := by
  refine ⟨rfl, rfl, rfl, ?_⟩
  intro κ ε t ht
  rw [is_empty_effect, ht]
  simp

/-- Events observable around invoke_reducer: the reducer being invoked, and
the effect handler being called with an effect. -/
inductive RunEvent (κ ε : Type) : Type where
  | reducerInvoked : RunEvent κ ε
  | handlerCalled : Effect κ ε → RunEvent κ ε

/-- Translation of the effect bearing overload of invoke_reducer
(context.hpp lines 341 to 358): invoke the reducer with the model and the
action, destructure the result into the new model and the effect, call the
handler with the effect exactly when is_empty_effect is false, and return
the new model.  The reducer and the handler are state passing so that the
number and order of their calls is observable in the state. -/
def invoke_reducer_eff {μ αA σ κ ε : Type}
    (reducer : μ → αA → σ → (μ × Effect κ ε) × σ) (model : μ) (action : αA)
    (handler : Effect κ ε → σ → σ) (s : σ) : μ × σ :=
  let r := reducer model action s
  (r.1.1, if !(is_empty_effect r.1.2) then handler r.1.2 r.2 else r.2)

/-- Translation of the plain overload of invoke_reducer (lines 360 to 373):
invoke the reducer with the model and the action and return its result
directly as the new model; the handler parameter is ignored. -/
def invoke_reducer_plain {μ αA σ κ ε : Type}
    (reducer : μ → αA → σ → μ × σ) (model : μ) (action : αA)
    (_handler : Effect κ ε → σ → σ) (s : σ) : μ × σ :=
  reducer model action s

/-- Claim C6: instrumenting the reducer and the handler with an event
trace, the effect bearing overload of invoke_reducer invokes the reducer
exactly once, returns the model the reducer produced, and calls the
handler exactly once with the produced effect when that effect is non
empty per is_empty_effect, zero times when it is empty; the plain overload
returns the reducer result directly and never calls the handler, whatever
handler is supplied. -/
theorem invoke_reducer_calls {μ αA κ ε : Type}
    (f : μ → αA → μ × Effect κ ε) (g : μ → αA → μ) (model : μ) (action : αA) :
    (invoke_reducer_eff
        (fun m a s => (f m a, s ++ [RunEvent.reducerInvoked]))
        model action (fun e s => s ++ [RunEvent.handlerCalled e]) []).1 =
      (f model action).1 ∧
      (invoke_reducer_eff
          (fun m a s => (f m a, s ++ [RunEvent.reducerInvoked]))
          model action (fun e s => s ++ [RunEvent.handlerCalled e]) []).2 =
        [RunEvent.reducerInvoked] ++
          (if is_empty_effect (f model action).2 then []
           else [RunEvent.handlerCalled (f model action).2]) ∧
      ∀ (handler : Effect κ ε → List (RunEvent κ ε) → List (RunEvent κ ε))
        (s : List (RunEvent κ ε)),
        invoke_reducer_plain
            (fun m a s => (g m a, s ++ [RunEvent.reducerInvoked]))
            model action handler s =
          (g model action, s ++ [RunEvent.reducerInvoked]) := by
  refine ⟨rfl, ?_, fun handler s => rfl⟩
  rw [invoke_reducer_eff]
  by_cases h : is_empty_effect (f model action).2 = true
  · simp [h]
  · have hf : is_empty_effect (f model action).2 = false := by simpa using h
    simp [hf]

/-- Translation of detail::dispatcher (context.hpp lines 126 to 129): a
dispatcher for a domain is the overload set of one std::function per
member action type of the domain.  Member action types are Nat codes; the
handler field gives, for each member code, the registered handler, a state
passing callable consuming the action value (of type π) and the observable
trace. -/
structure dispatcher (π σ : Type) : Type where
  dom : List Nat
  handler : Nat → π → σ → σ

/-- Translation of detail::find_convertible_action_aux (lines 64 to 76):
the first member of candidates that act is convertible to, hana find_if;
the value call on the hana optional fails to compile when none exists,
modelled by none. -/
def find_convertible_action (conv : Nat → Nat → Bool) (act : Nat)
    (candidates : List Nat) : Option Nat :=
  candidates.find? (fun t => conv act t)

/-- Semantics of the call dispatcher_(std::forward(act)) in
context::dispatch (lines 260 to 264): C++ overload resolution over the
inherited call operators of the std::function bases.  When the static type
of the action is a member, the exact match is chosen (an identity
conversion beats any conversion); otherwise a unique member that the
argument converts to is chosen, the value being converted by the implicit
conversion cv; otherwise the call is ill formed, modelled by none. -/
def dispatch_on {π σ : Type} (conv : Nat → Nat → Bool)
    (cv : Nat → Nat → π → π) (d : dispatcher π σ) (t : Nat) (v : π)
    (s : σ) : Option σ :=
  if t ∈ d.dom then some (d.handler t v s)
  else
    match d.dom.filter (fun b => conv t b) with
    | [b] => some (d.handler b (cv t b v) s)
    | _ => none

/-- Translation of the converting constructor of detail::dispatcher (lines
131 to 136): each member a of the new domain receives the std::function of
the other dispatcher registered for the first member b of the other domain
that a converts to; invoking that std::function with an a value implicitly
converts the value from a to b.  When some member has no convertible
candidate the construction does not compile, modelled by none. -/
def dispatcher_convert {π σ : Type} (conv : Nat → Nat → Bool)
    (cv : Nat → Nat → π → π) (ndom : List Nat) (other : dispatcher π σ) :
    Option (dispatcher π σ) :=
  if ndom.all (fun a => (find_convertible_action conv a other.dom).isSome) then
    some { dom := ndom,
           handler := fun a v s =>
             match find_convertible_action conv a other.dom with
             | some b => other.handler b (cv a b v) s
             | none => s }
  else none

/-- Translation of the converter taking constructor of detail::dispatcher
(lines 142 to 156, dispatcher_fn_aux): the handler for member a applies
the converter to the action (type map cty, value map cfn) and forwards the
converted value, implicitly converted, to the handler of the other
dispatcher for the first member of the other domain that the converter
result type converts to. -/
def dispatcher_convert_with {π σ : Type} (conv : Nat → Nat → Bool)
    (cv : Nat → Nat → π → π) (cty : Nat → Nat) (cfn : π → π)
    (ndom : List Nat) (other : dispatcher π σ) : Option (dispatcher π σ) :=
  if ndom.all (fun a =>
      (find_convertible_action conv (cty a) other.dom).isSome) then
    some { dom := ndom,
           handler := fun a v s =>
             match find_convertible_action conv (cty a) other.dom with
             | some b => other.handler b (cv (cty a) b (cfn v)) s
             | none => s }
  else none

/-- Translation of lager::context (lines 231 to 274): a deps value, a
dispatcher, and a shared pointer to the event loop handle.  The shared
pointer is the identity (a numeric address) of the pointed to
detail::event_loop_iface object, none when null; two contexts hold the
same shared pointer exactly when the loop fields are equal. -/
structure context (π σ δ : Type) : Type where
  deps : δ
  dispatcher_ : dispatcher π σ
  loop_ : Option Nat

/-- Translation of the default constructor (line 237): default constructed
deps, a dispatcher whose std::function members hold no callable (their
behaviour is irrelevant here), and a null loop pointer. -/
def context_default {π σ δ : Type} (d0 : δ) (dom : List Nat) :
    context π σ δ :=
  { deps := d0, dispatcher_ := { dom := dom, handler := fun _ _ s => s },
    loop_ := none }

/-- Translation of the converting constructor (lines 239 to 244): deps
converted from the origin, the dispatcher built by the converting
dispatcher constructor, and the loop pointer copied from the origin (the
same shared pointer). -/
def context_convert {π σ δ : Type} (conv : Nat → Nat → Bool)
    (cv : Nat → Nat → π → π) (ndom : List Nat) (ctx : context π σ δ) :
    Option (context π σ δ) :=
  (dispatcher_convert conv cv ndom ctx.dispatcher_).map
    (fun d => { deps := ctx.deps, dispatcher_ := d, loop_ := ctx.loop_ })

/-- Translation of the converter taking constructor (lines 246 to 251):
like the converting constructor, with the converter passed to the
dispatcher; the loop pointer is copied from the origin. -/
def context_convert_with {π σ δ : Type} (conv : Nat → Nat → Bool)
    (cv : Nat → Nat → π → π) (cty : Nat → Nat) (cfn : π → π)
    (ndom : List Nat) (ctx : context π σ δ) : Option (context π σ δ) :=
  (dispatcher_convert_with conv cv cty cfn ndom ctx.dispatcher_).map
    (fun d => { deps := ctx.deps, dispatcher_ := d, loop_ := ctx.loop_ })

/-- Translation of the constructor from a dispatcher, an event loop and a
deps value (lines 253 to 258): the only constructor that creates a new
event loop handle, via make_shared; newAddr is the address of the newly
created detail::event_loop_impl object. -/
def context_fresh {π σ δ : Type} (d : dispatcher π σ) (newAddr : Nat)
    (deps0 : δ) : context π σ δ :=
  { deps := deps0, dispatcher_ := d, loop_ := some newAddr }

/-- Translation of context::dispatch (lines 260 to 264): forwards the
action to the dispatcher member. -/
def context_dispatch {π σ δ : Type} (conv : Nat → Nat → Bool)
    (cv : Nat → Nat → π → π) (ctx : context π σ δ) (t : Nat) (v : π)
    (s : σ) : Option σ :=
  dispatch_on conv cv ctx.dispatcher_ t v s

/-- Translation of context::loop (line 266): dereferences the shared
pointer and returns the event loop handle; dereferencing a null pointer is
undefined behaviour, modelled by none. -/
def context_loop {π σ δ : Type} (ctx : context π σ δ) : Option Nat :=
  ctx.loop_

/-- Claim C7: dispatching an action whose static type is a member A of the
narrow domain on a context narrowed by the converting constructor invokes
the handler registered in the broad dispatcher for the first member B of
the broad domain that A converts to, passing the action converted from A
to B; and dispatching the converted action directly on the broad context
reaches the same handler with the same value, so narrowed dispatch equals
broad dispatch composed with the conversion. -/
theorem narrowed_dispatch_eq_broad {π σ δ : Type} (conv : Nat → Nat → Bool)
    (cv : Nat → Nat → π → π) (broad : context π σ δ) (ndom : List Nat)
    (A B : Nat) (v : π) (s : σ)
    (hall : ndom.all (fun a =>
      (find_convertible_action conv a broad.dispatcher_.dom).isSome) = true)
    (hA : A ∈ ndom)
    (hB : find_convertible_action conv A broad.dispatcher_.dom = some B) :
    (context_convert conv cv ndom broad).map
        (fun n => context_dispatch conv cv n A v s) =
      some (some (broad.dispatcher_.handler B (cv A B v) s)) ∧
      context_dispatch conv cv broad B (cv A B v) s =
        some (broad.dispatcher_.handler B (cv A B v) s) := by
  constructor
  · rw [context_convert, dispatcher_convert, if_pos hall]
    show some (dispatch_on conv cv
      { dom := ndom,
        handler := fun a v s =>
          match find_convertible_action conv a broad.dispatcher_.dom with
          | some b => broad.dispatcher_.handler b (cv a b v) s
          | none => s } A v s) = _
    rw [dispatch_on]
    simp only [hA, if_true, hB]
  · have hBmem : B ∈ broad.dispatcher_.dom :=
      List.mem_of_find?_eq_some hB
    rw [context_dispatch, dispatch_on, if_pos hBmem]

/-- Witness for claim C7: a broad context over the single member domain
containing code 5, narrowed to the domain containing code 3, with every
code convertible to every code, a value conversion that adds ten, and a
recording handler: dispatching the action 3 with value 3 on the narrowed
context reaches the broad handler for 5 with the converted value 13. -/
theorem narrowed_dispatch_eq_broad_witness :
    (context_convert (fun _ _ => true) (fun _ _ v => v + 10) [3]
          (context_fresh
            { dom := [5], handler := fun t v s => s ++ [(t, v)] } 0 ())).map
        (fun n =>
          context_dispatch (fun _ _ => true) (fun _ _ v => v + 10) n 3 3
            ([] : List (Nat × Nat))) =
      some (some [(5, 13)]) ∧
      context_dispatch (fun _ _ => true) (fun _ _ v => v + 10)
          (context_fresh
            { dom := [5], handler := fun t v s => s ++ [(t, v)] } 0 ())
          5 13 ([] : List (Nat × Nat)) =
        some [(5, 13)] :=
  narrowed_dispatch_eq_broad (fun _ _ => true) (fun _ _ v => v + 10)
    (context_fresh { dom := [5], handler := fun t v s => s ++ [(t, v)] } 0 ())
    [3] 3 5 3 [] (by decide) (by decide) (by decide)

/-- Claim C8: for a dispatcher over a domain of two distinct member codes
with a recording handler per member, dispatching an action of static type
A appends exactly one trace entry, for the handler of A with the
unconverted value: the count of calls to the handler of A grows by one and
the count of calls to the handler of B is unchanged; and symmetrically for
an action of static type B. -/
theorem dispatch_routes_exactly {π : Type} (conv : Nat → Nat → Bool)
    (cv : Nat → Nat → π → π) (A B : Nat) (v w : π) (s : List (Nat × π))
    (hne : A ≠ B) :
    dispatch_on conv cv
        { dom := [A, B], handler := fun t x tr => tr ++ [(t, x)] } A v s =
      some (s ++ [(A, v)]) ∧
      (s ++ [(A, v)]).countP (fun e => e.1 == A) =
        s.countP (fun e => e.1 == A) + 1 ∧
      (s ++ [(A, v)]).countP (fun e => e.1 == B) =
        s.countP (fun e => e.1 == B) ∧
      dispatch_on conv cv
          { dom := [A, B], handler := fun t x tr => tr ++ [(t, x)] } B w s =
        some (s ++ [(B, w)]) ∧
      (s ++ [(B, w)]).countP (fun e => e.1 == B) =
        s.countP (fun e => e.1 == B) + 1 ∧
      (s ++ [(B, w)]).countP (fun e => e.1 == A) =
        s.countP (fun e => e.1 == A) := by
  have hAmem : A ∈ [A, B] := List.mem_cons_self A [B]
  have hBmem : B ∈ [A, B] := List.mem_cons_of_mem A (List.mem_cons_self B [])
  refine ⟨?_, ?_, ?_, ?_, ?_, ?_⟩
  · rw [dispatch_on, if_pos hAmem]
  · simp [List.countP_append, List.countP_cons]
  · simp [List.countP_append, List.countP_cons, hne]
  · rw [dispatch_on, if_pos hBmem]
  · simp [List.countP_append, List.countP_cons]
  · simp [List.countP_append, List.countP_cons, Ne.symm hne]

/-- Witness for claim C8 at codes 0 and 1 with unit action values. -/
theorem dispatch_routes_exactly_witness :
    dispatch_on (fun _ _ => true) (fun _ _ v => v)
        { dom := [0, 1], handler := fun t x tr => tr ++ [(t, x)] } 0 () [] =
      some [(0, ())] ∧
      ([((0 : Nat), ())]).countP (fun e => e.1 == 0) =
        ([] : List (Nat × Unit)).countP (fun e => e.1 == 0) + 1 ∧
      ([((0 : Nat), ())]).countP (fun e => e.1 == 1) =
        ([] : List (Nat × Unit)).countP (fun e => e.1 == 1) ∧
      dispatch_on (fun _ _ => true) (fun _ _ v => v)
          { dom := [0, 1], handler := fun t x tr => tr ++ [(t, x)] } 1 () [] =
        some [(1, ())] ∧
      ([((1 : Nat), ())]).countP (fun e => e.1 == 1) =
        ([] : List (Nat × Unit)).countP (fun e => e.1 == 1) + 1 ∧
      ([((1 : Nat), ())]).countP (fun e => e.1 == 0) =
        ([] : List (Nat × Unit)).countP (fun e => e.1 == 0) :=
  dispatch_routes_exactly (fun _ _ => true) (fun _ _ v => v) 0 1 () () []
    (by decide)

/-- Claim C9: the two converting constructors copy the loop member, so a
context obtained by copying or converting holds the very same shared event
loop handle (and the same deps value) as the origin context; the
constructor from a dispatcher, an event loop and deps installs the newly
created handle, and it is the only constructor that creates one.  Every
operation of the model is a pure function of the context, so no operation
replaces the dispatcher, the deps or the handle after construction. -/
theorem context_shares_loop_handle {π σ δ : Type} (conv : Nat → Nat → Bool)
    (cv : Nat → Nat → π → π) (cty : Nat → Nat) (cfn : π → π)
    (ndom : List Nat) (c : context π σ δ) (d : dispatcher π σ)
    (newAddr : Nat) (d0 : δ)
    (hall1 : ndom.all (fun a =>
      (find_convertible_action conv a c.dispatcher_.dom).isSome) = true)
    (hall2 : ndom.all (fun a =>
      (find_convertible_action conv (cty a) c.dispatcher_.dom).isSome) = true) :
    (context_convert conv cv ndom c).map (fun x => x.loop_) = some c.loop_ ∧
      (context_convert conv cv ndom c).map (fun x => x.deps) = some c.deps ∧
      (context_convert_with conv cv cty cfn ndom c).map (fun x => x.loop_) =
        some c.loop_ ∧
      (context_convert_with conv cv cty cfn ndom c).map (fun x => x.deps) =
        some c.deps ∧
      (context_fresh d newAddr d0).loop_ = some newAddr := by
  rw [context_convert, dispatcher_convert, if_pos hall1,
    context_convert_with, dispatcher_convert_with, if_pos hall2]
  exact ⟨rfl, rfl, rfl, rfl, rfl⟩

/-- Witness for claim C9 at a concrete origin context with loop handle at
address 7. -/
theorem context_shares_loop_handle_witness :
    (context_convert (fun _ _ => true) (fun _ _ v => v) [0]
          (context_fresh
            { dom := [0], handler := fun _ _ s => s } 7
            () : context Nat Unit Unit)).map
        (fun x => x.loop_) = some (some 7) ∧
      (context_convert (fun _ _ => true) (fun _ _ v => v) [0]
            (context_fresh
              { dom := [0], handler := fun _ _ s => s } 7
              () : context Nat Unit Unit)).map
          (fun x => x.deps) = some () ∧
      (context_convert_with (fun _ _ => true) (fun _ _ v => v) (fun t => t)
            (fun v => v) [0]
            (context_fresh
              { dom := [0], handler := fun _ _ s => s } 7
              () : context Nat Unit Unit)).map
          (fun x => x.loop_) = some (some 7) ∧
      (context_convert_with (fun _ _ => true) (fun _ _ v => v) (fun t => t)
            (fun v => v) [0]
            (context_fresh
              { dom := [0], handler := fun _ _ s => s } 7
              () : context Nat Unit Unit)).map
          (fun x => x.deps) = some () ∧
      (context_fresh
          { dom := [0], handler := fun _ _ s => s } 9
          () : context Nat Unit Unit).loop_ = some 9 :=
  context_shares_loop_handle (fun _ _ => true) (fun _ _ v => v) (fun t => t)
    (fun v => v) [0]
    (context_fresh { dom := [0], handler := fun _ _ s => s } 7 ())
    { dom := [0], handler := fun _ _ s => s } 9 () (by decide) (by decide)

/-- Claim C10: a default constructed context has a null loop pointer, so
its loop call dereferences a null pointer, modelled by none; the
constructor from a dispatcher and a live event loop installs a live
handle, and converting construction preserves the presence of the handle,
so the loop call yields a valid handle exactly for contexts built fresh or
derived from such a context. -/
theorem default_context_loop_null {π σ δ : Type} (conv : Nat → Nat → Bool)
    (cv : Nat → Nat → π → π) (ndom dom : List Nat) (c : context π σ δ)
    (d : dispatcher π σ) (a : Nat) (d0 : δ)
    (hall : ndom.all (fun x =>
      (find_convertible_action conv x c.dispatcher_.dom).isSome) = true) :
    context_loop (context_default d0 dom : context π σ δ) = none ∧
      context_loop (context_fresh d a d0) = some a ∧
      (context_convert conv cv ndom c).map
          (fun x => (context_loop x).isSome) =
        some (context_loop c).isSome := by
  rw [context_convert, dispatcher_convert, if_pos hall]
  exact ⟨rfl, rfl, rfl⟩

/-- Witness for claim C10 at concrete contexts. -/
theorem default_context_loop_null_witness :
    context_loop (context_default () [0] : context Nat Unit Unit) = none ∧
      context_loop
          (context_fresh
            ({ dom := [0], handler := fun _ _ s => s } : dispatcher Nat Unit)
            4 ()) = some 4 ∧
      (context_convert (fun _ _ => true) (fun _ _ v => v) [0]
            (context_fresh
              ({ dom := [0],
                 handler := fun _ _ s => s } : dispatcher Nat Unit) 4
              ())).map
          (fun x => (context_loop x).isSome) =
        some (context_loop
          (context_fresh
            ({ dom := [0], handler := fun _ _ s => s } : dispatcher Nat Unit)
            4 ())).isSome :=
  default_context_loop_null (fun _ _ => true) (fun _ _ v => v) [0] [0]
    (context_fresh { dom := [0], handler := fun _ _ s => s } 4 ())
    { dom := [0], handler := fun _ _ s => s } 4 () (by decide)

end Lager
